import Mathlib

/-!
Verification development for the overlay PDF editor frontend
(`frontend/src/App.tsx`, `frontend/src/api.ts`,
`frontend/src/components/PdfViewer.tsx`, `frontend/src/types.ts`,
`frontend/src/components/Toolbar.tsx`).

Numeric coordinates coming from the viewer are modelled as rationals,
`Math.abs` is modelled by `mathAbs`, and JavaScript's
`String.prototype.trim` by `jsTrim`.  Effectful code (React state
updates, `fetch`) is modelled by explicit state passing: each handler
becomes a pure function from its inputs (including the outcome of any
awaited request, passed as an `Except`) to the resulting state or
observable action.
-/

/-- Model of JavaScript `Math.abs`, restricted to rational inputs. -/
def mathAbs (x : ℚ) : ℚ := if x < 0 then -x else x

/-- `Rect` from `types.ts`: `{x0, y0, x1, y1}` in page-point space. -/
structure Rect where
  x0 : ℚ
  y0 : ℚ
  x1 : ℚ
  y1 : ℚ
deriving DecidableEq

/-- `TextSpan` from `types.ts`: one extracted positioned text run. -/
structure TextSpan where
  text : String
  font : String
  size : ℚ
  color : String
  rect : Rect
  flags : Nat
deriving DecidableEq

/-- `EditOperation` from `types.ts`; `key` is the unique client-side key. -/
structure EditOperation where
  key : String
  page : Nat
  rect : Rect
  original_text : String
  new_text : String
  font : String
  font_size : ℚ
  color : String
deriving DecidableEq

/-- The ε-match test used by `handleAddEdit` in `App.tsx`: same page, and
the rects' `x0` and `y0` each differ by strictly less than 1 point in
absolute value (`Math.abs(e.rect.x0 - edit.rect.x0) < 1 &&
Math.abs(e.rect.y0 - edit.rect.y0) < 1`). -/
def sameRectKey (e edit : EditOperation) : Bool :=
  (e.page == edit.page)
    && decide (mathAbs (e.rect.x0 - edit.rect.x0) < 1)
    && decide (mathAbs (e.rect.y0 - edit.rect.y0) < 1)

/-- `handleAddEdit` from `App.tsx` (lines 82–98): find the first
accumulated edit whose page and rect `x0`/`y0` are within 1 point of the
incoming edit's (`findIndex`); replace it in place (`next[idx] = edit`)
if found, otherwise append the incoming edit. -/
def handleAddEdit (prev : List EditOperation) (edit : EditOperation) :
    List EditOperation :=
  match prev.findIdx? (fun e => sameRectKey e edit) with
  | some idx => prev.set idx edit
  | none => prev ++ [edit]

/-- The accumulated `edits` state of `App.tsx` after submitting a whole
sequence of edits through `handleAddEdit`, starting from the empty list. -/
def addEdits (es : List EditOperation) : List EditOperation :=
  es.foldl handleAddEdit []

/-- The identity key the spec associates to an edit: `(page, x0, y0)`. -/
def editKey (e : EditOperation) : Nat × ℚ × ℚ := (e.page, e.rect.x0, e.rect.y0)

/-- A family of submitted edits is separated when any two of its members
have `x0` (respectively `y0`) either equal or at least 1 point apart, so
that the ε-comparison of `sameRectKey` degenerates to equality of the
`(page, x0, y0)` key. -/
def Separated (es : List EditOperation) : Prop :=
  ∀ a ∈ es, ∀ b ∈ es,
    (mathAbs (a.rect.x0 - b.rect.x0) < 1 → a.rect.x0 = b.rect.x0) ∧
    (mathAbs (a.rect.y0 - b.rect.y0) < 1 → a.rect.y0 = b.rect.y0)

/-- `PageDimension` from `types.ts`. -/
structure PageDimension where
  page : Nat
  width : ℚ
  height : ℚ
deriving DecidableEq

/-- `DocumentInfo` from `types.ts`. -/
structure DocumentInfo where
  id : String
  filename : String
  pageCount : Nat
  pages : List PageDimension
deriving DecidableEq

/-- The part of the `App.tsx` component state that the upload and export
handlers read and write: the loaded document, the current page and the
accumulated edits. -/
structure AppState where
  docInfo : Option DocumentInfo
  currentPage : Nat
  edits : List EditOperation
deriving DecidableEq

/-- `handleFile` from `App.tsx` (lines 63–79): on a successful upload the
new document is installed, the current page becomes 0 and the edit list
becomes empty; on a failed upload only a toast is shown and the state is
left unchanged.  The outcome of `await uploadDocument(file)` is passed in
as an `Except`. -/
def handleFile (s : AppState) (uploadResult : Except String DocumentInfo) :
    AppState :=
  match uploadResult with
  | Except.ok info => { docInfo := some info, currentPage := 0, edits := [] }
  | Except.error _ => s

/-- Observable effect of `handleExport` from `App.tsx` (lines 113–130):
`if (!docInfo || edits.length === 0) return;` issues no request at all;
otherwise `exportDocument(docInfo.id, edits)` is called.  The result is
the export request issued, or `none` when the handler returns early. -/
def handleExport (docInfo : Option DocumentInfo) (edits : List EditOperation) :
    Option (String × List EditOperation) :=
  match docInfo with
  | none => none
  | some info => if edits.length = 0 then none else some (info.id, edits)

/-- The `disabled` condition of the export button in `Toolbar.tsx`:
`editCount === 0 || exporting`. -/
def exportButtonDisabled (editCount : Nat) (exporting : Bool) : Bool :=
  (editCount == 0) || exporting

/-- The server response observed by `exportDocument` in `api.ts`: the
`ok` flag and `status` of the `fetch` response, the text body read on
failure, and the blob bytes read on success. -/
structure HttpResponse where
  ok : Bool
  status : Nat
  bodyText : String
  bodyBlob : List Nat
deriving DecidableEq

/-- Response handling of `exportDocument` from `api.ts` (lines 47–64):
when the response is not ok, throw
`Error(` followed by a message built from the status and the text body
`)`; otherwise return the response blob. -/
def exportDocument (res : HttpResponse) : Except String (List Nat) :=
  if res.ok then Except.ok res.bodyBlob
  else Except.error
    (("Export failed (") ++ toString res.status ++ ("): ") ++ res.bodyText)

/-- One entry of the serialized export request body: exactly the fields
of `EditOperation` minus the client-side `key`, as produced by the
destructuring `({ key, ...rest }) => rest` in `exportDocument`
(`api.ts`). -/
structure EditPayload where
  page : Nat
  rect : Rect
  original_text : String
  new_text : String
  font : String
  font_size : ℚ
  color : String
deriving DecidableEq

/-- The destructuring `({ key, ...rest }) => rest` applied to one edit. -/
def stripKey (e : EditOperation) : EditPayload :=
  { page := e.page, rect := e.rect, original_text := e.original_text,
    new_text := e.new_text, font := e.font, font_size := e.font_size,
    color := e.color }

/-- The `edits` array of the serialized export request body built by
`exportDocument` in `api.ts`: `edits.map(({ key, ...rest }) => rest)`. -/
def exportPayload (edits : List EditOperation) : List EditPayload :=
  edits.map stripKey

/-- The whole serialized export request body `{edits: [...]}`. -/
structure ExportRequestBody where
  edits : List EditPayload
deriving DecidableEq

/-- The `payload` object built by `exportDocument` in `api.ts`. -/
def exportRequestBody (edits : List EditOperation) : ExportRequestBody :=
  { edits := exportPayload edits }

/-- The ε-match test between an accumulated edit and an extracted span,
as written identically in `getEditForSpan` and `handleSpanClick` in
`PdfViewer.tsx`: the edit is on the current page and its rect's
`x0`/`y0` are each within 1 point of the span's. -/
def spanMatch (currentPage : Nat) (span : TextSpan) (e : EditOperation) : Bool :=
  (e.page == currentPage)
    && decide (mathAbs (e.rect.x0 - span.rect.x0) < 1)
    && decide (mathAbs (e.rect.y0 - span.rect.y0) < 1)

/-- `getEditForSpan` from `PdfViewer.tsx` (lines 196–206): the first
accumulated edit matching the span under the ε key, if any. -/
def getEditForSpan (edits : List EditOperation) (currentPage : Nat)
    (span : TextSpan) : Option EditOperation :=
  edits.find? (spanMatch currentPage span)

/-- The editor prefill computed by `handleSpanClick` in `PdfViewer.tsx`
(lines 137–150): `existing?.new_text ?? span.text`, where `existing` is
the same ε-key lookup as `getEditForSpan`. -/
def spanClickPrefill (edits : List EditOperation) (currentPage : Nat)
    (span : TextSpan) : String :=
  match edits.find? (spanMatch currentPage span) with
  | some e => e.new_text
  | none => span.text

/-- One iteration of the font loop in `loadFonts` (`PdfViewer.tsx`,
lines 62–91): skip fonts already in the loaded set captured by the
effect; try to fetch and register the font face; on failure silently
fall through to the fallback, on success add the name to the loaded
set.  The outcome of `new FontFace(...).load()` is passed in as an
`Except`. -/
def loadFontsStep (prior : List String)
    (loadFont : String → Except String Unit)
    (acc : List String) (name : String) : List String :=
  if name ∈ prior then acc
  else
    match loadFont name with
    | Except.ok _ => acc ++ [name]
    | Except.error _ => acc

/-- `loadFonts` from `PdfViewer.tsx` (lines 62–91): list the document's
fonts and load each of them, with a catch-all around the listing and a
per-font catch-all, so that no failure ever escapes.  `prior` is the
`loadedFonts` state when the effect runs; the result is the loaded set
after the effect. -/
def loadFonts (prior : List String) (listing : Except String (List String))
    (loadFont : String → Except String Unit) : List String :=
  match listing with
  | Except.error _ => prior
  | Except.ok names => names.foldl (loadFontsStep prior loadFont) prior

/-- The `fontFamily` style computed for the inline editor input in
`PdfViewer.tsx` (lines 270–276): the loaded span font with a
`sans-serif` fallback when available, plain `sans-serif` otherwise. -/
def inputFontFamily (loadedFonts : List String) (font : String) : String :=
  if font ∈ loadedFonts then ("\"") ++ font ++ ("\", sans-serif")
  else ("sans-serif")

/-- Characters stripped by JavaScript `String.prototype.trim`
(WhiteSpace and LineTerminator code points). -/
def jsWhitespaceChars : List Char :=
  [' ', '\t', '\n', '\r', Char.ofNat 11, Char.ofNat 12, Char.ofNat 160,
   Char.ofNat 0xFEFF, Char.ofNat 0x2028, Char.ofNat 0x2029]

/-- Whether a character is whitespace for JavaScript `trim`. -/
def isJsWhitespace (c : Char) : Bool := jsWhitespaceChars.contains c

/-- Model of JavaScript `String.prototype.trim`: strip leading and
trailing whitespace. -/
def jsTrim (s : String) : String :=
  String.mk (((s.data.dropWhile isJsWhitespace).reverse.dropWhile
    isJsWhitespace).reverse)

/-- `confirmEdit` from `PdfViewer.tsx` (lines 153–170): with no span
being edited nothing happens; otherwise the input value is trimmed and
an `EditOperation` is emitted through `onAddEdit` only when the trimmed
value is non-empty (`trimmed` is truthy) and differs from the span's
text; the emitted edit carries the span's rect, text, font, size and
color, the trimmed value as `new_text`, and a fresh client key.  The
result is the edit passed to `onAddEdit`, or `none`. -/
def confirmEdit (editingSpan : Option TextSpan) (editValue : String)
    (currentPage : Nat) (newKey : String) : Option EditOperation :=
  match editingSpan with
  | none => none
  | some span =>
      let trimmed := jsTrim editValue
      if trimmed ≠ ("") ∧ trimmed ≠ span.text then
        some { key := newKey, page := currentPage, rect := span.rect,
               original_text := span.text, new_text := trimmed,
               font := span.font, font_size := span.size, color := span.color }
      else none

/-- A concrete rect at a given position, for witnesses and
counterexamples. -/
def rectAt (x y : ℚ) : Rect := { x0 := x, y0 := y, x1 := x + 100, y1 := y + 12 }

/-- A concrete edit at a given position, for witnesses and
counterexamples. -/
def editAt (k : String) (p : Nat) (x y : ℚ) (t : String) : EditOperation :=
  { key := k, page := p, rect := rectAt x y, original_text := ("orig"),
    new_text := t, font := ("Roboto-Regular"), font_size := 11,
    color := ("#000000") }

/-- A concrete span, for witnesses. -/
def spanAt (x y : ℚ) (t : String) : TextSpan :=
  { text := t, font := ("Roboto-Regular"), size := 11, color := ("#000000"),
    rect := rectAt x y, flags := 0 }

/-- A concrete document, for witnesses and counterexamples. -/
def sampleDoc : DocumentInfo :=
  { id := ("doc-1"), filename := ("sample.pdf"), pageCount := 1,
    pages := [{ page := 0, width := 612, height := 792 }] }

/-! Helper lemmas about `mathAbs` and `sameRectKey`. -/

/-- mathAbs agrees with the absolute value on rationals. -/
theorem mathAbs_eq_abs (x : ℚ) : mathAbs x = |x| := by
  by_cases h : x < 0
  · rw [mathAbs, if_pos h, abs_of_neg h]
  · rw [mathAbs, if_neg h, abs_of_nonneg (le_of_not_lt h)]

/-- mathAbs of a difference is symmetric. -/
theorem mathAbs_sub_comm (a b : ℚ) : mathAbs (a - b) = mathAbs (b - a) := by
  rw [mathAbs_eq_abs, mathAbs_eq_abs, abs_sub_comm]

/-- Unfolding of the ε-match test into propositions. -/
theorem sameRectKey_iff (a b : EditOperation) :
    sameRectKey a b = true ↔
      a.page = b.page ∧ mathAbs (a.rect.x0 - b.rect.x0) < 1 ∧
        mathAbs (a.rect.y0 - b.rect.y0) < 1 := by
  simp [sameRectKey, and_assoc]

/-- Two edits with equal `(page, x0, y0)` keys always ε-match. -/
theorem sameRectKey_of_editKey_eq {a b : EditOperation}
    (h : editKey a = editKey b) : sameRectKey a b = true := by
  rcases Prod.mk.injEq .. ▸ h with ⟨h1, h23⟩
  rcases Prod.mk.injEq .. ▸ h23 with ⟨h2, h3⟩
  exact sameRectKey_iff a b |>.mpr
    ⟨h1, by rw [h2]; simp [mathAbs], by rw [h3]; simp [mathAbs]⟩

/-- The ε-match test is symmetric. -/
theorem sameRectKey_symm (a b : EditOperation) :
    sameRectKey a b = sameRectKey b a := by
  cases hab : sameRectKey a b <;> cases hba : sameRectKey b a <;> try rfl
  · rcases (sameRectKey_iff b a).mp hba with ⟨h1, h2, h3⟩
    have : sameRectKey a b = true := (sameRectKey_iff a b).mpr
      ⟨h1.symm, by rwa [mathAbs_sub_comm], by rwa [mathAbs_sub_comm]⟩
    rw [hab] at this
    exact absurd this (by simp)
  · rcases (sameRectKey_iff a b).mp hab with ⟨h1, h2, h3⟩
    have : sameRectKey b a = true := (sameRectKey_iff b a).mpr
      ⟨h1.symm, by rwa [mathAbs_sub_comm], by rwa [mathAbs_sub_comm]⟩
    rw [hba] at this
    exact absurd this (by simp)

/-- Specification of a successful `findIdx?` search. -/
theorem findIdx?_some_spec {α : Type} {p : α → Bool} {l : List α} {i : Nat}
    (h : l.findIdx? p = some i) :
    ∃ hi : i < l.length, p (l.get ⟨i, hi⟩) = true := by
  rcases List.findIdx?_eq_some_iff_findIdx_eq.mp h with ⟨hi, hfi⟩
  subst hfi
  exact ⟨hi, List.findIdx_getElem⟩

/-- C1: adding an edit when the accumulated list already holds an
ε-matching edit on the same page replaces the first such edit in place,
keeps the list length unchanged, and puts the incoming edit in the list
(last-submitted wins); with no ε-match the incoming edit is appended.
In particular submitting two ε-matching edits in a row leaves exactly
one edit, carrying the second edit's text. -/
theorem C1_replace_not_duplicate :
    (∀ (prev : List EditOperation) (edit : EditOperation),
        (∃ e ∈ prev, sameRectKey e edit = true) →
          (handleAddEdit prev edit).length = prev.length ∧
          edit ∈ handleAddEdit prev edit ∧
          ∃ idx, ∃ h : idx < prev.length,
            sameRectKey (prev.get ⟨idx, h⟩) edit = true ∧
            handleAddEdit prev edit = prev.set idx edit) ∧
    (∀ (prev : List EditOperation) (edit : EditOperation),
        (∀ e ∈ prev, sameRectKey e edit = false) →
          handleAddEdit prev edit = prev ++ [edit]) ∧
    (∀ e1 e2 : EditOperation, sameRectKey e1 e2 = true →
        addEdits [e1, e2] = [e2] ∧ (addEdits [e1, e2]).length = 1 ∧
        ∀ e ∈ addEdits [e1, e2], e.new_text = e2.new_text) := by
  refine ⟨?_, ?_, ?_⟩
  · intro prev edit hex
    have hfind := List.findIdx?_eq_some_of_exists hex
    rcases findIdx?_some_spec hfind with ⟨hlt, hkey⟩
    have heq : handleAddEdit prev edit =
        prev.set (prev.findIdx (fun e => sameRectKey e edit)) edit := by
      simp [handleAddEdit, hfind]
    refine ⟨by rw [heq, List.length_set], ?_, ?_⟩
    · rw [heq]
      exact List.mem_set prev _ hlt edit
    · exact ⟨_, hlt, hkey, heq⟩
  · intro prev edit hnone
    have : prev.findIdx? (fun e => sameRectKey e edit) = none :=
      List.findIdx?_eq_none_iff.mpr hnone
    simp [handleAddEdit, this]
  · intro e1 e2 h
    have step1 : handleAddEdit [] e1 = [e1] := by
      simp [handleAddEdit]
    have step2 : handleAddEdit [e1] e2 = [e2] := by
      simp [handleAddEdit, List.findIdx?_cons, h]
    have : addEdits [e1, e2] = [e2] := by
      simp [addEdits, step1, step2]
    refine ⟨this, by rw [this]; rfl, ?_⟩
    intro e he
    rw [this] at he
    simp at he
    rw [he]

/-- Witness for C1 at a concrete input: resubmitting an edit at the very
same rect replaces it and leaves a single edit with the new text. -/
theorem C1_replace_not_duplicate_witness :
    sameRectKey (editAt ("k1") 0 100 700 ("Bonjour")) (editAt ("k2") 0 100 700 ("Salut")) = true ∧
    addEdits [editAt ("k1") 0 100 700 ("Bonjour"), editAt ("k2") 0 100 700 ("Salut")] =
      [editAt ("k2") 0 100 700 ("Salut")] := by
  have hk : sameRectKey (editAt ("k1") 0 100 700 ("Bonjour"))
      (editAt ("k2") 0 100 700 ("Salut")) = true := by
    simp [sameRectKey, editAt, rectAt, mathAbs]
  exact ⟨hk, (C1_replace_not_duplicate.2.2 _ _ hk).1⟩

/-- Membership after one addition: every element of the new list was
already accumulated or is the incoming edit. -/
theorem handleAddEdit_mem (acc : List EditOperation) (edit e : EditOperation)
    (h : e ∈ handleAddEdit acc edit) : e ∈ acc ∨ e = edit := by
  cases hidx : acc.findIdx? (fun x => sameRectKey x edit) with
  | none =>
      simp only [handleAddEdit, hidx] at h
      rcases List.mem_append.mp h with h1 | h1
      · exact Or.inl h1
      · simp at h1
        exact Or.inr h1
  | some idx =>
      simp only [handleAddEdit, hidx] at h
      exact List.mem_or_eq_of_mem_set h

/-- On a separated family the ε-match test implies key equality. -/
theorem key_eq_of_sameRectKey {es : List EditOperation} (hsep : Separated es)
    {a b : EditOperation} (ha : a ∈ es) (hb : b ∈ es)
    (h : sameRectKey a b = true) : editKey a = editKey b := by
  rcases (sameRectKey_iff a b).mp h with ⟨h1, h2, h3⟩
  rcases hsep a ha b hb with ⟨hx, hy⟩
  simp [editKey, h1, hx h2, hy h3]

/-- One addition from a separated family preserves pairwise-distinct
keys of the accumulated list. -/
theorem handleAddEdit_pairwise {es : List EditOperation} (hsep : Separated es)
    (acc : List EditOperation) (edit : EditOperation)
    (hacc : ∀ e ∈ acc, e ∈ es) (hedit : edit ∈ es)
    (hpw : acc.Pairwise (fun a b => editKey a ≠ editKey b)) :
    (handleAddEdit acc edit).Pairwise (fun a b => editKey a ≠ editKey b) := by
  cases hidx : acc.findIdx? (fun x => sameRectKey x edit) with
  | none =>
      have hnone := List.findIdx?_eq_none_iff.mp hidx
      have hform : handleAddEdit acc edit = acc ++ [edit] := by
        simp [handleAddEdit, hidx]
      rw [hform]
      refine List.pairwise_append.mpr ⟨hpw, by simp, ?_⟩
      intro a ha b hb
      simp only [List.mem_singleton] at hb
      subst hb
      intro hkey
      have htrue := sameRectKey_of_editKey_eq hkey
      rw [hnone a ha] at htrue
      exact absurd htrue (by simp)
  | some idx =>
      rcases findIdx?_some_spec hidx with ⟨hlt, hkey⟩
      have hmem : acc.get ⟨idx, hlt⟩ ∈ es := hacc _ (List.get_mem acc idx hlt)
      have heq : editKey (acc.get ⟨idx, hlt⟩) = editKey edit :=
        key_eq_of_sameRectKey hsep hmem hedit hkey
      have hform : handleAddEdit acc edit = acc.set idx edit := by
        simp [handleAddEdit, hidx]
      rw [hform]
      rw [List.pairwise_iff_getElem] at hpw ⊢
      intro i j hi hj hij
      have hi' : i < acc.length := by simpa using hi
      have hj' : j < acc.length := by simpa using hj
      rw [List.getElem_set, List.getElem_set]
      by_cases h1 : idx = i
      · subst h1
        rw [if_pos rfl, if_neg (by omega)]
        have hne := hpw idx j hi' hj' hij
        intro hc
        exact hne (heq.trans hc)
      · rw [if_neg h1]
        by_cases h2 : idx = j
        · subst h2
          rw [if_pos rfl]
          have hne := hpw i idx hi' hj' hij
          intro hc
          exact hne (hc.trans heq.symm)
        · rw [if_neg h2]
          exact hpw i j hi' hj' hij

/-- Folding a separated family of submitted edits through
`handleAddEdit` keeps the accumulated list inside the family and keeps
its `(page, x0, y0)` keys pairwise distinct. -/
theorem foldl_handleAddEdit_invariant (es : List EditOperation)
    (hsep : Separated es) :
    ∀ rest : List EditOperation, (∀ e ∈ rest, e ∈ es) →
    ∀ acc : List EditOperation, (∀ e ∈ acc, e ∈ es) →
      acc.Pairwise (fun a b => editKey a ≠ editKey b) →
      (∀ e ∈ rest.foldl handleAddEdit acc, e ∈ es) ∧
      (rest.foldl handleAddEdit acc).Pairwise
        (fun a b => editKey a ≠ editKey b) := by
  intro rest
  induction rest with
  | nil =>
      intro _ acc hacc hpw
      exact ⟨hacc, hpw⟩
  | cons e rest ih =>
      intro hrest acc hacc hpw
      have he : e ∈ es := hrest e (by simp)
      have hrest' : ∀ x ∈ rest, x ∈ es := fun x hx => hrest x (by simp [hx])
      have hacc' : ∀ x ∈ handleAddEdit acc e, x ∈ es := by
        intro x hx
        rcases handleAddEdit_mem acc e x hx with h | h
        · exact hacc x h
        · exact h ▸ he
      have hpw' : (handleAddEdit acc e).Pairwise
          (fun a b => editKey a ≠ editKey b) :=
        handleAddEdit_pairwise hsep acc e hacc he hpw
      simpa using ih hrest' (handleAddEdit acc e) hacc' hpw'

/-- C2 (amended): provided the submitted edits are separated — any two
of them have `x0` (respectively `y0`) equal or at least ε = 1 point
apart — the accumulated edit list never contains two edits at distinct
positions that ε-match on the same page, so the list behaves as a
mapping keyed by `(page, x0, y0)`.  Without the separation proviso the
claimed invariant is false; see the counterexample. -/
theorem C2_mapping_invariant (es : List EditOperation) (hsep : Separated es) :
    (addEdits es).Pairwise (fun a b => sameRectKey a b = false) ∧
    ∀ i j (hi : i < (addEdits es).length) (hj : j < (addEdits es).length),
      i ≠ j →
      sameRectKey ((addEdits es).get ⟨i, hi⟩) ((addEdits es).get ⟨j, hj⟩)
        = false := by
  have hinv := foldl_handleAddEdit_invariant es hsep es (fun _ h => h)
    [] (by simp) (by simp)
  have hmem : ∀ e ∈ addEdits es, e ∈ es := hinv.1
  have hpwkeys : (addEdits es).Pairwise (fun a b => editKey a ≠ editKey b) :=
    hinv.2
  have hpw : (addEdits es).Pairwise (fun a b => sameRectKey a b = false) := by
    refine hpwkeys.imp_of_mem ?_
    intro a b ha hb hne
    cases hk : sameRectKey a b with
    | false => rfl
    | true =>
        exact absurd (key_eq_of_sameRectKey hsep (hmem a ha) (hmem b hb) hk)
          hne
  refine ⟨hpw, ?_⟩
  have hgetpw := List.pairwise_iff_getElem.mp hpw
  intro i j hi hj hij
  rcases Nat.lt_or_ge i j with hlt | hge
  · exact hgetpw i j hi hj hlt
  · have hlt : j < i := by omega
    rw [sameRectKey_symm]
    exact hgetpw j i hj hi hlt

/-- Witness for C2 at a concrete separated input: a single submitted
edit is separated and yields a list with no ε-matching pair. -/
theorem C2_mapping_invariant_witness :
    Separated [editAt ("k1") 0 100 700 ("Bonjour")] ∧
    (addEdits [editAt ("k1") 0 100 700 ("Bonjour")]).Pairwise
      (fun a b => sameRectKey a b = false) := by
  have hsep : Separated [editAt ("k1") 0 100 700 ("Bonjour")] := by
    intro a ha b hb
    simp only [List.mem_singleton] at ha hb
    subst ha
    subst hb
    exact ⟨fun _ => rfl, fun _ => rfl⟩
  exact ⟨hsep, (C2_mapping_invariant _ hsep).1⟩

/-- Counterexample to C2 as stated: submitting edits at `x0 = 0`, then
`x0 = 3/2`, then `x0 = 3/4` (same page, same `y0`) makes the third edit
replace the first, leaving a list whose two distinct entries ε-match
each other — the accumulated list is not a mapping under the ε key. -/
theorem C2_counterexample :
    addEdits [editAt ("a") 0 0 0 ("ta"), editAt ("b") 0 (3/2) 0 ("tb"),
        editAt ("c") 0 (3/4) 0 ("tc")] =
      [editAt ("c") 0 (3/4) 0 ("tc"), editAt ("b") 0 (3/2) 0 ("tb")] ∧
    sameRectKey (editAt ("c") 0 (3/4) 0 ("tc"))
        (editAt ("b") 0 (3/2) 0 ("tb")) = true ∧
    editAt ("c") 0 (3/4) 0 ("tc") ≠ editAt ("b") 0 (3/2) 0 ("tb") := by
  refine ⟨?_, ?_, ?_⟩
  · norm_num [addEdits, handleAddEdit, sameRectKey, mathAbs, editAt, rectAt,
      List.findIdx?_cons, List.findIdx?_nil]
  · norm_num [sameRectKey, mathAbs, editAt, rectAt]
  · norm_num [editAt, rectAt]

/-- C3 (amended): at the client boundary a zero-edit export is a no-op,
not a request returning the original document: `handleExport` issues an
export request exactly when a document is loaded and the edit list is
nonempty, and the Toolbar's export button is disabled whenever the edit
count is zero. -/
theorem C3_zero_edit_export_noop (docInfo : Option DocumentInfo)
    (edits : List EditOperation) (exporting : Bool) :
    (handleExport docInfo edits = none ↔ docInfo = none ∨ edits = []) ∧
    exportButtonDisabled 0 exporting = true := by
  constructor
  · cases docInfo with
    | none => simp [handleExport]
    | some info =>
        simp only [handleExport]
        rcases eq_or_ne edits [] with he | he
        · subst he
          simp
        · have h : ¬edits.length = 0 := fun hc => he (List.length_eq_zero.mp hc)
          simp [h, he]
  · simp [exportButtonDisabled]

/-- Witness for C3's amended statement at a concrete input: with a
loaded document and an empty edit list no export request is issued. -/
theorem C3_zero_edit_export_noop_witness :
    handleExport (some sampleDoc) [] = none :=
  (C3_zero_edit_export_noop (some sampleDoc) [] false).1.mpr (Or.inr rfl)

/-- Counterexample to C3 as stated: with a loaded document and zero
edits, `handleExport` returns early — no export request is issued and
no content is produced, contrary to the claim that the original
document content is returned. -/
theorem C3_counterexample :
    handleExport (some sampleDoc) [] = none ∧
    ∀ req, handleExport (some sampleDoc) [] ≠ some req := by
  refine ⟨rfl, ?_⟩
  intro req h
  simp [handleExport] at h

/-- C4: `exportDocument` returns the complete response bytes exactly
when the server response is ok; otherwise it throws an `Error` whose
message carries the response status, and no bytes are returned. -/
theorem C4_export_all_or_nothing (res : HttpResponse) :
    (res.ok = true → exportDocument res = Except.ok res.bodyBlob) ∧
    (res.ok = false → exportDocument res = Except.error
        ((("Export failed (") ++ toString res.status ++ ("): "))
          ++ res.bodyText)) ∧
    (∀ b, exportDocument res = Except.ok b ↔
        res.ok = true ∧ b = res.bodyBlob) := by
  refine ⟨?_, ?_, ?_⟩
  · intro h
    simp [exportDocument, h]
  · intro h
    simp [exportDocument, h]
  · intro b
    cases h : res.ok with
    | false => simp [exportDocument, h]
    | true => simp [exportDocument, h, eq_comm]

/-- Witness for C4 at concrete responses: a 200 response yields the
blob, a 500 response yields an error message carrying the status. -/
theorem C4_export_all_or_nothing_witness :
    exportDocument
        { ok := true, status := 200, bodyText := (""), bodyBlob := [1, 2, 3] }
      = Except.ok [1, 2, 3] ∧
    exportDocument
        { ok := false, status := 500, bodyText := ("boom"), bodyBlob := [] }
      = Except.error ("Export failed (500): boom") := by
  constructor
  · exact (C4_export_all_or_nothing _).1 rfl
  · exact (C4_export_all_or_nothing _).2.1 rfl

/-- C5: the export request body is `{edits: [...]}` where each entry
has exactly the `EditPayload` fields (page, rect, original_text,
new_text, font, font_size, color) and no `key`; the payload is
invariant under any renaming of the client-side keys. -/
theorem C5_payload_strips_key (edits : List EditOperation)
    (e : EditOperation) (k : String) (rename : String → String) :
    (exportRequestBody edits = { edits := edits.map stripKey }) ∧
    (stripKey { e with key := k } = stripKey e) ∧
    (exportRequestBody (edits.map (fun x => { x with key := rename x.key }))
        = exportRequestBody edits) ∧
    (stripKey e =
      { page := e.page, rect := e.rect, original_text := e.original_text,
        new_text := e.new_text, font := e.font, font_size := e.font_size,
        color := e.color }) := by
  refine ⟨rfl, rfl, ?_, rfl⟩
  simp only [exportRequestBody, exportPayload, List.map_map]
  congr 1

/-- Witness for C5 at a concrete input: two edits differing only in
their client-side key serialize to the same payload. -/
theorem C5_payload_strips_key_witness :
    stripKey { editAt ("k1") 0 100 700 ("Bonjour") with key := ("zzz") }
      = stripKey (editAt ("k1") 0 100 700 ("Bonjour")) :=
  (C5_payload_strips_key [] (editAt ("k1") 0 100 700 ("Bonjour")) ("zzz")
    id).2.1

/-- C6 (amended): when an incoming edit ε-matches an accumulated edit,
the matched edit is overwritten in place: the length is unchanged, the
matched slot now holds the incoming edit, and every other edit keeps
both its value and its position.  The composition order is therefore
the order in which the edits' keys first entered the list — a
replacement keeps the replaced edit's original slot — not the order in
which the edits were last replaced; see the counterexample. -/
theorem C6_stable_order_frame (prev : List EditOperation)
    (edit : EditOperation) (idx : Nat)
    (h : prev.findIdx? (fun e => sameRectKey e edit) = some idx) :
    handleAddEdit prev edit = prev.set idx edit ∧
    (handleAddEdit prev edit).length = prev.length ∧
    (handleAddEdit prev edit)[idx]? = some edit ∧
    ∀ j, j ≠ idx → (handleAddEdit prev edit)[j]? = prev[j]? := by
  have hform : handleAddEdit prev edit = prev.set idx edit := by
    simp [handleAddEdit, h]
  rcases findIdx?_some_spec h with ⟨hlt, -⟩
  refine ⟨hform, by rw [hform, List.length_set], ?_, ?_⟩
  · rw [hform]
    exact List.getElem?_set_self hlt
  · intro j hj
    rw [hform]
    exact List.getElem?_set_ne (Ne.symm hj)

/-- Witness for C6's amended statement at a concrete input: replacing
the first of two accumulated edits keeps the second edit in place. -/
theorem C6_stable_order_frame_witness :
    [editAt ("a") 0 0 0 ("ta"), editAt ("b") 0 10 0 ("tb")].findIdx?
        (fun e => sameRectKey e (editAt ("a2") 0 0 0 ("ta2"))) = some 0 ∧
    handleAddEdit [editAt ("a") 0 0 0 ("ta"), editAt ("b") 0 10 0 ("tb")]
        (editAt ("a2") 0 0 0 ("ta2"))
      = [editAt ("a2") 0 0 0 ("ta2"), editAt ("b") 0 10 0 ("tb")] := by
  have h : [editAt ("a") 0 0 0 ("ta"), editAt ("b") 0 10 0 ("tb")].findIdx?
      (fun e => sameRectKey e (editAt ("a2") 0 0 0 ("ta2"))) = some 0 := by
    simp [List.findIdx?_cons, sameRectKey, editAt, rectAt, mathAbs]
  exact ⟨h, (C6_stable_order_frame _ _ 0 h).1⟩

/-- Counterexample to C6 as stated: submit an edit at `x0 = 0`, one at
`x0 = 10`, then a replacement at `x0 = 0`.  The replacement keeps slot
0, so the list is not in the order the edits were last replaced into
the mapping (which would put the untouched `x0 = 10` edit first). -/
theorem C6_counterexample :
    addEdits [editAt ("a") 0 0 0 ("ta"), editAt ("b") 0 10 0 ("tb"),
        editAt ("a2") 0 0 0 ("ta2")] =
      [editAt ("a2") 0 0 0 ("ta2"), editAt ("b") 0 10 0 ("tb")] ∧
    addEdits [editAt ("a") 0 0 0 ("ta"), editAt ("b") 0 10 0 ("tb"),
        editAt ("a2") 0 0 0 ("ta2")] ≠
      [editAt ("b") 0 10 0 ("tb"), editAt ("a2") 0 0 0 ("ta2")] := by
  have heval : addEdits [editAt ("a") 0 0 0 ("ta"), editAt ("b") 0 10 0 ("tb"),
      editAt ("a2") 0 0 0 ("ta2")] =
      [editAt ("a2") 0 0 0 ("ta2"), editAt ("b") 0 10 0 ("tb")] := by
    norm_num [addEdits, handleAddEdit, sameRectKey, mathAbs, editAt, rectAt,
      List.findIdx?_cons, List.findIdx?_nil]
  refine ⟨heval, ?_⟩
  rw [heval]
  norm_num [editAt, rectAt]

/-- C7: a span is associated with an accumulated edit exactly when some
edit on the current page has rect `x0`/`y0` each within 1 point of the
span's; a missing match is not an error — clicking such a span prefills
the inline editor with the span's own text, while a matched span
prefills the matched edit's `new_text`. -/
theorem C7_span_matching (edits : List EditOperation) (currentPage : Nat)
    (span : TextSpan) :
    ((getEditForSpan edits currentPage span).isSome = true ↔
      ∃ e ∈ edits, e.page = currentPage ∧
        mathAbs (e.rect.x0 - span.rect.x0) < 1 ∧
        mathAbs (e.rect.y0 - span.rect.y0) < 1) ∧
    (getEditForSpan edits currentPage span = none →
      spanClickPrefill edits currentPage span = span.text) ∧
    (∀ e, getEditForSpan edits currentPage span = some e →
      e ∈ edits ∧ spanMatch currentPage span e = true ∧
      spanClickPrefill edits currentPage span = e.new_text) := by
  refine ⟨?_, ?_, ?_⟩
  · rw [getEditForSpan, List.find?_isSome]
    constructor
    · rintro ⟨e, he, hp⟩
      refine ⟨e, he, ?_⟩
      simpa [spanMatch, and_assoc] using hp
    · rintro ⟨e, he, hp⟩
      refine ⟨e, he, ?_⟩
      simpa [spanMatch, and_assoc] using hp
  · intro h
    simp only [getEditForSpan] at h
    simp only [spanClickPrefill, h]
  · intro e h
    simp only [getEditForSpan] at h
    exact ⟨List.mem_of_find?_eq_some h, List.find?_some h,
      by simp only [spanClickPrefill, h]⟩

/-- Witness for C7 at a concrete input: with no accumulated edits a
clicked span prefills its own text. -/
theorem C7_span_matching_witness :
    spanClickPrefill [] 0 (spanAt 100 700 ("Hello")) = ("Hello") :=
  (C7_span_matching [] 0 (spanAt 100 700 ("Hello"))).2.1 rfl

/-- Membership after one step of the font-loading loop. -/
theorem loadFontsStep_mem (prior : List String)
    (loadFont : String → Except String Unit) (acc : List String)
    (n name : String) (h : name ∈ loadFontsStep prior loadFont acc n) :
    name ∈ acc ∨ (name = n ∧ ∃ u, loadFont n = Except.ok u) := by
  by_cases hp : n ∈ prior
  · simp only [loadFontsStep, if_pos hp] at h
    exact Or.inl h
  · cases hl : loadFont n with
    | ok u =>
        simp only [loadFontsStep, if_neg hp, hl] at h
        rcases List.mem_append.mp h with h2 | h2
        · exact Or.inl h2
        · simp only [List.mem_singleton] at h2
          exact Or.inr ⟨h2, u, rfl⟩
    | error e =>
        simp only [loadFontsStep, if_neg hp, hl] at h
        exact Or.inl h

/-- Membership after the whole font-loading loop. -/
theorem loadFonts_loop_mem (prior : List String)
    (loadFont : String → Except String Unit) :
    ∀ (names acc : List String) (name : String),
      name ∈ names.foldl (loadFontsStep prior loadFont) acc →
      name ∈ acc ∨ (name ∈ names ∧ ∃ u, loadFont name = Except.ok u) := by
  intro names
  induction names with
  | nil =>
      intro acc name h
      exact Or.inl (by simpa using h)
  | cons n ns ih =>
      intro acc name h
      rcases ih (loadFontsStep prior loadFont acc n) name (by simpa using h)
        with h1 | h1
      · rcases loadFontsStep_mem prior loadFont acc n name h1 with h2 | h2
        · exact Or.inl h2
        · rcases h2 with ⟨rfl, h2b⟩
          exact Or.inr ⟨by simp, h2b⟩
      · exact Or.inr ⟨by simp [h1.1], h1.2⟩

/-- C8: font loading and resolution are total and never surface an
error: a failed font listing leaves the loaded set unchanged, a font
that fails to load is simply skipped (only fonts whose load succeeded
ever enter the loaded set), and the editor's font resolution always
yields a usable family — the loaded span font backed by `sans-serif`,
or the `sans-serif` fallback alone for any unresolvable font name. -/
theorem C8_font_fallback_total (prior : List String) (err : String)
    (names : List String) (loadFont : String → Except String Unit)
    (loadedFonts : List String) (font : String) :
    (loadFonts prior (Except.error err) loadFont = prior) ∧
    (∀ name, name ∈ loadFonts prior (Except.ok names) loadFont →
        name ∈ prior ∨ (name ∈ names ∧ ∃ u, loadFont name = Except.ok u)) ∧
    (inputFontFamily loadedFonts font = ("sans-serif") ∨
      inputFontFamily loadedFonts font
        = ("\"") ++ font ++ ("\", sans-serif")) ∧
    (font ∉ loadedFonts → inputFontFamily loadedFonts font = ("sans-serif")) := by
  refine ⟨rfl, ?_, ?_, ?_⟩
  · intro name h
    exact loadFonts_loop_mem prior loadFont names prior name h
  · by_cases hm : font ∈ loadedFonts
    · exact Or.inr (by simp [inputFontFamily, hm])
    · exact Or.inl (by simp [inputFontFamily, hm])
  · intro hm
    simp [inputFontFamily, hm]

/-- Witness for C8 at concrete inputs: a failed listing is absorbed,
and an unregistered font resolves to the fallback family. -/
theorem C8_font_fallback_total_witness :
    loadFonts [] (Except.error ("network down")) (fun _ => Except.error ("x"))
      = [] ∧
    inputFontFamily [] ("Foo-Bold") = ("sans-serif") := by
  refine ⟨(C8_font_fallback_total [] ("network down") []
    (fun _ => Except.error ("x")) [] ("Foo-Bold")).1, ?_⟩
  exact (C8_font_fallback_total [] ("network down") []
    (fun _ => Except.error ("x")) [] ("Foo-Bold")).2.2.2 (by simp)

/-- C9: confirming an inline edit whose trimmed value is empty or equal
to the span's original text emits no `EditOperation` (and with no span
being edited nothing is emitted either); an edit is emitted exactly
when the trimmed value is non-empty and differs from the original, and
it carries the span's rect, original text, font, size and color, the
trimmed value as `new_text`, the current page and the fresh client
key. -/
theorem C9_noop_edit_guard (span : TextSpan) (editValue : String)
    (currentPage : Nat) (newKey : String) :
    (confirmEdit none editValue currentPage newKey = none) ∧
    ((jsTrim editValue = ("") ∨ jsTrim editValue = span.text) →
        confirmEdit (some span) editValue currentPage newKey = none) ∧
    ((jsTrim editValue ≠ ("") ∧ jsTrim editValue ≠ span.text) →
        confirmEdit (some span) editValue currentPage newKey =
          some
            { key := newKey, page := currentPage, rect := span.rect,
              original_text := span.text, new_text := jsTrim editValue,
              font := span.font, font_size := span.size,
              color := span.color }) := by
  refine ⟨rfl, ?_, ?_⟩
  · intro h
    have hn : ¬(jsTrim editValue ≠ ("") ∧ jsTrim editValue ≠ span.text) := by
      rcases h with h | h <;> simp [h]
    simp only [confirmEdit, if_neg hn]
  · intro h
    simp only [confirmEdit, if_pos h]

/-- Witness for C9 at concrete inputs: a whitespace-only input emits
nothing, and an input differing from the span text emits the trimmed
edit. -/
theorem C9_noop_edit_guard_witness :
    jsTrim ("   ") = ("") ∧
    confirmEdit (some (spanAt 100 700 ("Hello"))) ("   ") 0 ("edit-1")
      = none ∧
    confirmEdit (some (spanAt 100 700 ("Hello"))) (" Salut ") 0 ("edit-2")
      = some
          { key := ("edit-2"), page := 0, rect := rectAt 100 700,
            original_text := ("Hello"), new_text := ("Salut"),
            font := ("Roboto-Regular"), font_size := 11,
            color := ("#000000") } := by
  have ht : jsTrim ("   ") = ("") := by decide
  have ht2 : jsTrim (" Salut ") = ("Salut") := by decide
  refine ⟨ht, ?_, ?_⟩
  · exact (C9_noop_edit_guard (spanAt 100 700 ("Hello")) ("   ") 0
      ("edit-1")).2.1 (Or.inl ht)
  · have h := (C9_noop_edit_guard (spanAt 100 700 ("Hello")) (" Salut ") 0
      ("edit-2")).2.2 (by rw [ht2]; exact ⟨by decide, by decide⟩)
    rw [ht2] at h
    exact h

/-- C10: a successful upload resets the editing session — the new
document is installed, the current page becomes 0 and the edit list
becomes empty, so no edit accumulated against the previous document
survives; a failed upload leaves the whole state unchanged. -/
theorem C10_upload_reset (s : AppState) (info : DocumentInfo)
    (msg : String) :
    (handleFile s (Except.ok info) =
      { docInfo := some info, currentPage := 0, edits := [] }) ∧
    ((handleFile s (Except.ok info)).edits = [] ∧
      (handleFile s (Except.ok info)).currentPage = 0 ∧
      (handleFile s (Except.ok info)).docInfo = some info) ∧
    (∀ e, e ∈ s.edits → e ∉ (handleFile s (Except.ok info)).edits) ∧
    (handleFile s (Except.error msg) = s) := by
  refine ⟨rfl, ⟨rfl, rfl, rfl⟩, ?_, rfl⟩
  intro e _ hc
  simp only [handleFile, List.mem_nil_iff] at hc

/-- Witness for C10 at a concrete input: uploading a new document over
a session with one accumulated edit empties the edit list and resets
the page. -/
theorem C10_upload_reset_witness :
    handleFile
        { docInfo := none, currentPage := 3,
          edits := [editAt ("old") 0 0 0 ("t")] }
        (Except.ok sampleDoc)
      = { docInfo := some sampleDoc, currentPage := 0, edits := [] } :=
  (C10_upload_reset
    { docInfo := none, currentPage := 3,
      edits := [editAt ("old") 0 0 0 ("t")] }
    sampleDoc ("")).1
